import Mathlib

/-!
Verification of the Collector capture window (`src/src/App.svelte`).

The JavaScript/Svelte component is shallowly embedded: each definition below
mirrors one function (or one inlined block) of the source, with machine strings
modelled as Lean `String` and JS numbers as `Nat`/`Int` where the source only
produces integers in range.
-/

namespace Collector

/-- ECMAScript whitespace as removed by `String.prototype.trim`:
the WhiteSpace production (TAB, VT, FF, SP, NBSP, ZWNBSP, Unicode Zs)
together with the LineTerminator production (LF, CR, LS, PS). -/
def jsWhitespace (c : Char) : Bool :=
  ['\t', '\n', '\x0b', '\x0c', '\r', ' ',
   ' ', ' ', ' ', ' ', ' ', ' ', ' ',
   ' ', ' ', ' ', ' ', ' ', ' ',
   ' ', ' ', ' ', ' ', '　', '﻿'].contains c

/-- Model of JavaScript `s.trim()`: strip `jsWhitespace` from both ends. -/
def jsTrim (s : String) : String :=
  ⟨((s.data.dropWhile jsWhitespace).reverse.dropWhile jsWhitespace).reverse⟩

/-- Model of the JavaScript `s.endsWith(t)` test. -/
def strEndsWith (s t : String) : Bool :=
  t.data.isSuffixOf s.data

/-- Model of JavaScript `s.split(sep)` for a single-character separator:
the list of (possibly empty) chunks between occurrences of `sep`. -/
def splitOnChar (sep : Char) : List Char → List (List Char)
  | [] => [[]]
  | c :: rest =>
    match splitOnChar sep rest with
    | [] => [[]]
    | h :: t => if c = sep then [] :: h :: t else (c :: h) :: t

/-- Model of JavaScript `s.toLowerCase()` (ASCII range, which is all the
shortcut-matching code exercises). -/
def jsToLower (s : String) : String := ⟨s.data.map Char.toLower⟩

/-- JavaScript `s.substring(0, n)` for `0 ≤ n ≤ s.length`. -/
def substringTo (s : String) (n : Nat) : String := ⟨s.data.take n⟩

/-- JavaScript `s.substring(n)` for `0 ≤ n ≤ s.length`. -/
def substringFrom (s : String) (n : Nat) : String := ⟨s.data.drop n⟩

theorem strData_append (s t : String) : (s ++ t).data = s.data ++ t.data := rfl

theorem strLength_data (s : String) : s.length = s.data.length := rfl

theorem str_ext {s t : String} (h : s.data = t.data) : s = t :=
  congrArg String.mk h

theorem strLength_append (s t : String) :
    (s ++ t).length = s.length + t.length := by
  rw [strLength_data, strLength_data, strLength_data, strData_append,
    List.length_append]

theorem strAppend_assoc (a b c : String) : a ++ b ++ c = a ++ (b ++ c) := by
  apply str_ext
  simp [strData_append]

theorem strEndsWith_append_newline (s : String) :
    strEndsWith (s ++ "\n") "\n" = true := by
  have : ("\n" : String).data <:+ (s ++ "\n").data := by
    refine ⟨s.data, ?_⟩
    simp [strData_append]
  simp only [strEndsWith, List.isSuffixOf_iff_suffix, decide_eq_true_eq]
  exact this

theorem strEndsWith_two_newlines {s : String}
    (h : strEndsWith s "\n" = false) : strEndsWith s "\n\n" = false := by
  by_contra hcon
  rw [Bool.not_eq_false] at hcon
  rw [strEndsWith, List.isSuffixOf_iff_suffix] at hcon
  have h1 : ("\n" : String).data <:+ ("\n\n" : String).data := ⟨['\n'], rfl⟩
  have h2 : ("\n" : String).data <:+ s.data := h1.trans hcon
  rw [← List.isSuffixOf_iff_suffix] at h2
  rw [strEndsWith] at h
  simp [h] at h2

/-! ### The insertion loop of `handleDrop` (`App.svelte` lines 643–668)

For each resolved image the loop forms `imageMarkdown = img.markdown + "\n"`
and inserts it at the running position, either by appending at the end of the
buffer (after making sure the buffer ends with a line break) or by splitting
the buffer at the running position. -/

/-- One iteration of the `validImages.forEach` insertion loop in `handleDrop`:
given the current buffer `content` and running position, insert one markdown
reference and return the new buffer and position. -/
def insertOne (content : String) (currentPosition : Nat) (markdown : String) :
    String × Nat :=
  let imageMarkdown := markdown ++ "\n"
  if content.length ≤ currentPosition then
    let fixup := content.length != 0 && !(strEndsWith content "\n")
    let content' := if fixup then content ++ "\n" else content
    let currentPosition' := if fixup then content'.length else currentPosition
    (content' ++ imageMarkdown, currentPosition' + imageMarkdown.length)
  else
    let before := substringTo content currentPosition
    let after := substringFrom content currentPosition
    let isAtLineStart := strEndsWith before "\n" || before.length == 0
    if !isAtLineStart && !(strEndsWith before "\n\n") then
      (before ++ "\n" ++ imageMarkdown ++ after,
       currentPosition + 1 + imageMarkdown.length)
    else
      (before ++ imageMarkdown ++ after, currentPosition + imageMarkdown.length)

/-- The whole insertion loop of `handleDrop`: fold `insertOne` over the batch
of markdown references, starting from the resolved insert position. -/
def insertImages (content : String) (insertPosition : Nat)
    (markdowns : List String) : String × Nat :=
  markdowns.foldl (fun st md => insertOne st.1 st.2 md) (content, insertPosition)

/-- Spec-side helper: the markdown references of a batch, each followed by a
line break, concatenated in batch order. -/
def concatRefs : List String → String
  | [] => ""
  | md :: rest => md ++ "\n" ++ concatRefs rest

theorem insertOne_end_nice (content : String) (pos : Nat) (md : String)
    (h : content.length ≤ pos)
    (hn : content = "" ∨ strEndsWith content "\n" = true) :
    insertOne content pos md = (content ++ (md ++ "\n"), pos + (md ++ "\n").length) := by
  have hfix : (content.length != 0 && !(strEndsWith content "\n")) = false := by
    rcases hn with h1 | h1
    · subst h1; rfl
    · simp [h1]
  simp only [insertOne, if_pos h, hfix, if_neg Bool.false_ne_true]

theorem insertImages_nice (mds : List String) :
    ∀ (content : String) (pos : Nat), content.length ≤ pos →
      (content = "" ∨ strEndsWith content "\n" = true) →
      (insertImages content pos mds).1 = content ++ concatRefs mds := by
  induction mds with
  | nil =>
    intro content pos _ _
    apply str_ext
    simp [insertImages, concatRefs, strData_append]
  | cons md rest ih =>
    intro content pos h hn
    have hstep := insertOne_end_nice content pos md h hn
    have hfold : insertImages content pos (md :: rest)
        = insertImages (content ++ (md ++ "\n")) (pos + (md ++ "\n").length) rest := by
      simp only [insertImages, List.foldl_cons, hstep]
    rw [hfold]
    have hlen : (content ++ (md ++ "\n")).length ≤ pos + (md ++ "\n").length := by
      rw [strLength_append]
      omega
    have hnice : content ++ (md ++ "\n") = "" ∨
        strEndsWith (content ++ (md ++ "\n")) "\n" = true := by
      right
      rw [← strAppend_assoc]
      exact strEndsWith_append_newline (content ++ md)
    rw [ih (content ++ (md ++ "\n")) (pos + (md ++ "\n").length) hlen hnice]
    rw [concatRefs, strAppend_assoc, strAppend_assoc]

/-- Appending at (or past) the end of the buffer: the loop first ensures a
trailing line break (only when the buffer is non-empty and lacks one), then
appends every reference followed by a line break, in batch order. -/
theorem insertImages_end_append (content : String) (pos : Nat)
    (mds : List String) (hne : mds ≠ []) (h : content.length ≤ pos) :
    (insertImages content pos mds).1 =
      content ++
        (if content.length != 0 && !(strEndsWith content "\n") then "\n" else "") ++
        concatRefs mds := by
  obtain ⟨md, rest, rfl⟩ : ∃ md rest, mds = md :: rest := by
    cases mds with
    | nil => exact absurd rfl hne
    | cons a b => exact ⟨a, b, rfl⟩
  by_cases hfix : (content.length != 0 && !(strEndsWith content "\n")) = true
  · have hstep : insertOne content pos md =
        ((content ++ "\n") ++ (md ++ "\n"),
         (content ++ "\n").length + (md ++ "\n").length) := by
      simp only [insertOne, if_pos h, hfix, if_pos]
    have hfold : insertImages content pos (md :: rest)
        = insertImages ((content ++ "\n") ++ (md ++ "\n"))
            ((content ++ "\n").length + (md ++ "\n").length) rest := by
      simp only [insertImages, List.foldl_cons, hstep]
    rw [hfold, insertImages_nice rest _ _ (by rw [strLength_append])
        (Or.inr (by rw [← strAppend_assoc]; exact strEndsWith_append_newline _))]
    rw [if_pos hfix]
    rw [concatRefs]
    rw [strAppend_assoc, strAppend_assoc, strAppend_assoc]
  · rw [Bool.not_eq_true] at hfix
    have hn : content = "" ∨ strEndsWith content "\n" = true := by
      rcases Bool.and_eq_false_iff.mp hfix with h1 | h1
      · left
        apply str_ext
        have : content.length = 0 := by simpa using h1
        rw [strLength_data] at this
        simpa using List.eq_nil_of_length_eq_zero this
      · right
        simpa using h1
    rw [insertImages_nice (md :: rest) content pos h hn, hfix]
    rw [if_neg Bool.false_ne_true]
    apply str_ext
    simp [strData_append]

theorem insertOne_mid (content : String) (pos : Nat) (md : String)
    (h : pos < content.length) :
    (insertOne content pos md).1 =
      substringTo content pos ++
        (if strEndsWith (substringTo content pos) "\n" ||
            (substringTo content pos).length == 0
         then "" else "\n") ++
        md ++ "\n" ++ substringFrom content pos := by
  simp only [insertOne]
  rw [if_neg (by omega : ¬(content.length ≤ pos))]
  by_cases hline : (strEndsWith (substringTo content pos) "\n" ||
      (substringTo content pos).length == 0) = true
  · rw [if_pos hline]
    simp only [hline, Bool.not_true, Bool.false_and,
      if_neg Bool.false_ne_true]
    apply str_ext
    simp [strData_append]
  · rw [if_neg hline]
    have hb := Bool.eq_false_iff.mpr hline
    have hnl : strEndsWith (substringTo content pos) "\n" = false :=
      (Bool.or_eq_false_iff.mp hb).1
    have h2 := strEndsWith_two_newlines hnl
    simp only [hb, Bool.not_false, h2, Bool.and_true, if_pos]
    apply str_ext
    simp [strData_append]

/-- C3: inserting a batch at or past the end of the buffer first ensures a
trailing line break (appended only when the buffer is non-empty and lacks
one), then appends each reference followed by a line break in batch order. -/
theorem insertImages_at_end_spec (content : String) (pos : Nat)
    (mds : List String) (hne : mds ≠ []) (h : content.length ≤ pos) :
    (insertImages content pos mds).1 =
      content ++
        (if content.length != 0 && !(strEndsWith content "\n") then "\n" else "") ++
        concatRefs mds :=
  insertImages_end_append content pos mds hne h

theorem insertImages_at_end_spec_witness :
    (insertImages "X" 1 ["![[a.png]]", "![[b.png]]"]).1
      = "X\n![[a.png]]\n![[b.png]]\n" := by
  rw [insertImages_at_end_spec "X" 1 ["![[a.png]]", "![[b.png]]"]
    (by decide) (by decide)]
  decide

/-- C4: inserting a record strictly inside the buffer splits it into
`before`/`after` at the running position and prepends a line break to the
insertion text unless `before` already ends with a line break or is empty,
so the reference never concatenates onto an existing line's trailing
content. -/
theorem insertImages_mid_buffer_spec (content : String) (pos : Nat)
    (md : String) (h : pos < content.length) :
    (insertImages content pos [md]).1 =
      substringTo content pos ++
        (if strEndsWith (substringTo content pos) "\n" ||
            (substringTo content pos).length == 0
         then "" else "\n") ++
        md ++ "\n" ++ substringFrom content pos := by
  have hfold : insertImages content pos [md] = insertOne content pos md := rfl
  rw [hfold]
  exact insertOne_mid content pos md h

theorem insertImages_mid_buffer_spec_witness :
    (insertImages "hello" 0 ["![[a.png]]"]).1 = "![[a.png]]" ++ "\n" ++ "hello" := by
  rw [insertImages_mid_buffer_spec "hello" 0 "![[a.png]]" (by decide)]
  decide

/-! ### Component state (`App.svelte` lines 7–35, 440)

`content`, `uploadedImages`, `statusMessage`/`statusType`, `isDragging`,
`dragCounter` and `isLoading` are the mutable variables of the capture
window; an `ImageRec` is one element of `uploadedImages` (the fields the
verified claims depend on). -/

structure ImageRec where
  filename : String
  markdown : String
deriving DecidableEq

structure AppState where
  content : String
  uploadedImages : List ImageRec
  statusMessage : String
  statusType : String
  isDragging : Bool
  dragCounter : Int
  isLoading : Bool
deriving DecidableEq

/-- The component's variables as declared (lines 8–13 and 440). -/
def initialState : AppState :=
  { content := "", uploadedImages := [], statusMessage := "", statusType := "",
    isDragging := false, dragCounter := 0, isLoading := false }

/-- The `show_capture` listener (lines 147–160): release previews, clear the
buffer text, the image records, the status message, the drag state and the
loading flag.  `statusType` is not assigned by the listener. -/
def resetOnShow (s : AppState) : AppState :=
  { s with content := "", uploadedImages := [], statusMessage := "",
           isDragging := false, dragCounter := 0, isLoading := false }

/-- What the template renders: buffer text, gallery, drag overlay, loading
indicator, and the status toast — the toast (and its error styling from
`statusType`) is shown only when `statusMessage` is non-empty. -/
def observe (s : AppState) :
    String × List ImageRec × Bool × Bool × Int × Option (String × String) :=
  (s.content, s.uploadedImages, s.isDragging, s.isLoading, s.dragCounter,
   if s.statusMessage = "" then none else some (s.statusMessage, s.statusType))

/-- C7: the `show_capture` reset is idempotent — two consecutive resets give
the same state — and the state after a reset is observably identical to the
freshly constructed component. -/
theorem reset_idempotent_and_fresh (s : AppState) :
    resetOnShow (resetOnShow s) = resetOnShow s ∧
      observe (resetOnShow s) = observe initialState := by
  constructor
  · rfl
  · simp [observe, resetOnShow, initialState]

/-! ### Drag state machine (`App.svelte` lines 78–100, 110–138, 442–489)

Two event sources drive `dragCounter`/`isDragging`: the browser-style
handlers (`handleDragEnter`/`handleDragLeave`/`handleDragOver`/`handleDrop`
and the capture-phase `globalDrag*` listeners) and the Tauri native stream
(`handleDragDropEvent` with `enter`/`over`/`leave`/`drop` payloads). -/

inductive DragEvent where
  | dragEnter (isFileDrag : Bool)
  | dragOver (isFileDrag : Bool)
  | dragLeave (pointerOutside : Bool)
  | drop
  | globalEnter (isFileDrag : Bool)
  | globalLeave (atDocumentRoot : Bool)
  | tauriEnter
  | tauriOver
  | tauriLeave
  | tauriDrop

/-- The effect of each drag event on `dragCounter` and `isDragging`,
transcribed handler by handler. -/
def dragStep (s : AppState) : DragEvent → AppState
  | .dragEnter fd =>
      if fd then
        let c := s.dragCounter + 1
        { s with dragCounter := c,
                 isDragging := if c = 1 then true else s.isDragging }
      else s
  | .dragOver fd => if fd then { s with isDragging := true } else s
  | .dragLeave outside =>
      if outside then
        let c := s.dragCounter - 1
        if c ≤ 0 then { s with dragCounter := 0, isDragging := false }
        else { s with dragCounter := c }
      else s
  | .drop => { s with dragCounter := 0, isDragging := false }
  | .globalEnter fd =>
      if fd then { s with dragCounter := max s.dragCounter 1, isDragging := true }
      else s
  | .globalLeave atRoot =>
      if atRoot then { s with dragCounter := 0, isDragging := false } else s
  | .tauriEnter => { s with isDragging := true }
  | .tauriOver => { s with isDragging := true }
  | .tauriLeave => { s with dragCounter := 0, isDragging := false }
  | .tauriDrop => { s with dragCounter := 0, isDragging := false }

theorem dragStep_nonneg (s : AppState) (e : DragEvent)
    (h : 0 ≤ s.dragCounter) : 0 ≤ (dragStep s e).dragCounter := by
  cases e <;> simp only [dragStep] <;>
    repeat' first
      | split
      | assumption
      | simp only []
      | omega

theorem dragSteps_nonneg (evs : List DragEvent) :
    ∀ s : AppState, 0 ≤ s.dragCounter →
      0 ≤ (evs.foldl dragStep s).dragCounter := by
  induction evs with
  | nil => intro s h; simpa using h
  | cons e rest ih =>
    intro s h
    exact ih (dragStep s e) (dragStep_nonneg s e h)

/-- C6: across every sequence of enter/leave/over/drop events from either
source the drag nesting counter never becomes negative, and every drop event
(from either source) resets the counter to 0 and the drag phase to idle. -/
theorem dragCounter_nonneg_and_drop_resets :
    (∀ evs : List DragEvent, 0 ≤ (evs.foldl dragStep initialState).dragCounter) ∧
    (∀ s : AppState,
      (dragStep s .drop).dragCounter = 0 ∧
      (dragStep s .drop).isDragging = false ∧
      (dragStep s .tauriDrop).dragCounter = 0 ∧
      (dragStep s .tauriDrop).isDragging = false) := by
  constructor
  · intro evs
    exact dragSteps_nonneg evs initialState (by simp [initialState])
  · intro s
    exact ⟨rfl, rfl, rfl, rfl⟩

/-! ### Drop-batch completion versus reset (`App.svelte` lines 594–684)

`handleDrop` suspends at `Promise.all(promises)`; when the persistence
results arrive, the continuation (lines 594–684) inserts the resolved
markdown references into the *current* `content` and appends the records to
the *current* `uploadedImages`.  The continuation performs no staleness
check: there is no generation counter in the component. -/

inductive CaptureEvent where
  | showCapture
  | dropBatchComplete (records : List ImageRec) (insertPosition : Nat)

/-- One event processed on the UI event loop: either the `show_capture`
reset fires, or a pending drop batch completes and its continuation runs
(unconditionally, as in the source). -/
def captureStep (s : AppState) : CaptureEvent → AppState
  | .showCapture => resetOnShow s
  | .dropBatchComplete recs pos =>
      if recs.length != 0 then
        { s with
          content := (insertImages s.content pos (recs.map (fun r => r.markdown))).1,
          uploadedImages := s.uploadedImages ++ recs }
      else s

/-- C2 evaluation: a drop batch that was pending when the `show_capture`
reset fired is *not* discarded — its completion inserts into the reset
buffer and appends to the reset record list. -/
theorem stale_batch_applied_after_reset :
    (captureStep (captureStep { initialState with content := "draft notes" }
        .showCapture) (.dropBatchComplete [⟨"a.png", "![[a.png]]"⟩] 0)).content
      = "![[a.png]]\n" ∧
    (captureStep (captureStep { initialState with content := "draft notes" }
        .showCapture) (.dropBatchComplete [⟨"a.png", "![[a.png]]"⟩] 0)).uploadedImages
      = [⟨"a.png", "![[a.png]]"⟩] := by
  constructor
  · decide
  · decide

/-! ### Shortcut matching (`App.svelte` lines 364–404) -/

/-- The modifier tokens stripped when looking for the key token. -/
def modifierNames : List String :=
  ["Cmd", "Command", "Ctrl", "Control", "Shift", "Alt", "Option", "Opt"]

/-- `shortcutString.split("+").map(p => p.trim())`. -/
def shortcutParts (s : String) : List String :=
  (splitOnChar '+' s.data).map (fun part => jsTrim ⟨part⟩)

def specHasCmd (s : String) : Bool :=
  (shortcutParts s).contains "Cmd" || (shortcutParts s).contains "Command"

def specHasCtrl (s : String) : Bool :=
  (shortcutParts s).contains "Ctrl" || (shortcutParts s).contains "Control"

def specHasShift (s : String) : Bool :=
  (shortcutParts s).contains "Shift"

def specHasAlt (s : String) : Bool :=
  (shortcutParts s).contains "Alt" || (shortcutParts s).contains "Option" ||
    (shortcutParts s).contains "Opt"

/-- The first token that is not a modifier name (`parts.find(...)`). -/
def specKey (s : String) : Option String :=
  (shortcutParts s).find? (fun p => !(modifierNames.contains p))

/-- The modifier flags and key of a keyboard event. -/
structure KeyEvent where
  metaKey : Bool
  ctrlKey : Bool
  shiftKey : Bool
  altKey : Bool
  key : String
deriving DecidableEq

/-- `matchesShortcut(event, shortcutString)` transcribed from the source:
empty spec never matches, a spec without a key token never matches, and
otherwise the modifier flags are compared via
`(metaKey === hasCmd || ctrlKey === hasCmd) && ctrlKey === hasCtrl &&
shiftKey === hasShift && altKey === hasAlt`, with a case-insensitive key
comparison. -/
def matchesShortcut (event : KeyEvent) (shortcutString : String) : Bool :=
  if shortcutString = "" then false
  else
    match specKey shortcutString with
    | none => false
    | some key =>
      let modifiersMatch :=
        (event.metaKey == specHasCmd shortcutString ||
          event.ctrlKey == specHasCmd shortcutString) &&
        event.ctrlKey == specHasCtrl shortcutString &&
        event.shiftKey == specHasShift shortcutString &&
        event.altKey == specHasAlt shortcutString
      let keyMatches := jsToLower event.key == jsToLower key
      modifiersMatch && keyMatches

/-- C1 counterexample: `"Shift+Enter"` contains no `Cmd` modifier, yet an
event with the meta flag set (meta+shift+Enter) still matches, because the
`ctrlKey === hasCmd` disjunct is satisfied by both flags being false. -/
theorem metaKey_matches_cmdless_spec :
    specHasCmd "Shift+Enter" = false ∧
    (⟨true, false, true, false, "Enter"⟩ : KeyEvent).metaKey = true ∧
    matchesShortcut ⟨true, false, true, false, "Enter"⟩ "Shift+Enter" = true := by
  refine ⟨by decide, rfl, by decide⟩

/-- C1 (amended): a match requires the shift, alt and ctrl flags to equal the
spec's exactly, and the Cmd requirement to be met by the meta *or* the ctrl
flag; hence for a spec with Ctrl but without Cmd the meta flag must be clear,
while for a spec with neither Cmd nor Ctrl the meta flag is ignored. -/
theorem matchesShortcut_exact_modifiers (event : KeyEvent) (s : String)
    (h : matchesShortcut event s = true) :
    event.shiftKey = specHasShift s ∧
    event.altKey = specHasAlt s ∧
    event.ctrlKey = specHasCtrl s ∧
    (event.metaKey = specHasCmd s ∨ event.ctrlKey = specHasCmd s) ∧
    (specHasCmd s = false → specHasCtrl s = true → event.metaKey = false) := by
  rw [matchesShortcut] at h
  split at h
  · exact absurd h Bool.false_ne_true
  · split at h
    · exact absurd h Bool.false_ne_true
    · simp only [Bool.and_eq_true, Bool.or_eq_true, beq_iff_eq] at h
      obtain ⟨⟨⟨⟨hcmd, hctrl⟩, hshift⟩, halt⟩, _⟩ := h
      refine ⟨hshift, halt, hctrl, hcmd, ?_⟩
      intro hnocmd hasctrl
      rcases hcmd with hm | hc
      · rw [hm, hnocmd]
      · rw [hnocmd] at hc
        rw [hasctrl] at hctrl
        rw [hctrl] at hc
        exact absurd hc.symm Bool.false_ne_true

theorem matchesShortcut_exact_modifiers_witness :
    matchesShortcut ⟨true, false, false, false, "Enter"⟩ "Cmd+Enter" = true ∧
    ((⟨true, false, false, false, "Enter"⟩ : KeyEvent).shiftKey
        = specHasShift "Cmd+Enter" ∧
      (⟨true, false, false, false, "Enter"⟩ : KeyEvent).altKey
        = specHasAlt "Cmd+Enter" ∧
      (⟨true, false, false, false, "Enter"⟩ : KeyEvent).ctrlKey
        = specHasCtrl "Cmd+Enter" ∧
      ((⟨true, false, false, false, "Enter"⟩ : KeyEvent).metaKey
          = specHasCmd "Cmd+Enter" ∨
        (⟨true, false, false, false, "Enter"⟩ : KeyEvent).ctrlKey
          = specHasCmd "Cmd+Enter") ∧
      (specHasCmd "Cmd+Enter" = false → specHasCtrl "Cmd+Enter" = true →
        (⟨true, false, false, false, "Enter"⟩ : KeyEvent).metaKey = false)) :=
  ⟨by decide, matchesShortcut_exact_modifiers _ _ (by decide)⟩

/-! ### Image ingestion (`App.svelte` lines 496–596)

Each dropped file is classified by `file.name.split(".").pop()?.toLowerCase()`
against the allowed extensions; an acceptable entry is then resolved through
`save_image` (path present) or `save_image_from_bytes` (bytes), and any
failure — missing runtime, base64 encoding error, or a rejected invoke —
makes that entry's promise resolve to `null`.  `Promise.all` collects the
results in batch order and the `null`s are filtered out. -/

def allowedExtensions : List String := ["png", "jpg", "jpeg", "webp", "gif"]

/-- `name.split(".").pop()?.toLowerCase()`: the last dot-separated chunk of
the filename, lowercased. -/
def fileExt (name : String) : String :=
  jsToLower ⟨(splitOnChar '.' name.data).getLastD []⟩

/-- How the persistence boundary answers for one entry: a successful
path-based or bytes-based save returning the markdown reference, or one of
the per-entry failures. -/
inductive Resolution where
  | pathSaved (markdown : String)
  | bytesSaved (markdown : String)
  | noRuntime
  | encodingFailure
  | persistenceFailure
deriving DecidableEq

/-- One entry of a drop batch: its filename and the outcome the persistence
collaborators produce for it. -/
structure DropEntry where
  filename : String
  resolution : Resolution
deriving DecidableEq

/-- The extension test in `handleDrop` and `handleTauriFileDrop`. -/
def isAcceptable (e : DropEntry) : Bool :=
  allowedExtensions.contains (fileExt e.filename)

/-- Whether an entry ends up contributing a record: acceptable extension and
a successful save. -/
def entrySucceeds (e : DropEntry) : Bool :=
  isAcceptable e &&
    match e.resolution with
    | .pathSaved _ => true
    | .bytesSaved _ => true
    | _ => false

def entryMarkdown (e : DropEntry) : String :=
  match e.resolution with
  | .pathSaved md => md
  | .bytesSaved md => md
  | _ => ""

def entryRecord (e : DropEntry) : ImageRec :=
  ⟨e.filename, entryMarkdown e⟩

/-- One entry's promise: `null` (`none`) for an unsupported extension or any
per-entry failure, otherwise the resolved image record. -/
def processEntry (e : DropEntry) : Option ImageRec :=
  if !isAcceptable e then none
  else
    match e.resolution with
    | .pathSaved md => some ⟨e.filename, md⟩
    | .bytesSaved md => some ⟨e.filename, md⟩
    | .noRuntime => none
    | .encodingFailure => none
    | .persistenceFailure => none

/-- `Promise.all` + `results.filter(img => img !== null)`: the successfully
resolved records, in original batch order. -/
def processBatch (batch : List DropEntry) : List ImageRec :=
  batch.filterMap processEntry

def unsupportedCount (batch : List DropEntry) : Nat :=
  (batch.filter (fun e => !isAcceptable e)).length

def failureCount (batch : List DropEntry) : Nat :=
  (batch.filter (fun e => isAcceptable e && !entrySucceeds e)).length

theorem processEntry_eq (e : DropEntry) :
    processEntry e = if entrySucceeds e then some (entryRecord e) else none := by
  obtain ⟨fn, res⟩ := e
  cases hacc : isAcceptable ⟨fn, res⟩ <;>
    cases res <;>
      simp [processEntry, entrySucceeds, entryRecord, entryMarkdown, hacc]

theorem processBatch_filter (batch : List DropEntry) :
    processBatch batch = (batch.filter entrySucceeds).map entryRecord := by
  induction batch with
  | nil => rfl
  | cons e rest ih =>
    simp only [processBatch, List.filterMap_cons, processEntry_eq] at ih ⊢
    cases hs : entrySucceeds e <;> simp [hs, List.filter_cons, ih]

theorem batch_count_sum (batch : List DropEntry) :
    (processBatch batch).length + unsupportedCount batch + failureCount batch
      = batch.length := by
  induction batch with
  | nil => rfl
  | cons e rest ih =>
    have hpb : (processBatch (e :: rest)).length
        = (if entrySucceeds e then 1 else 0) + (processBatch rest).length := by
      simp only [processBatch, List.filterMap_cons, processEntry_eq]
      cases entrySucceeds e <;> simp [Nat.add_comm]
    have huc : unsupportedCount (e :: rest)
        = (if isAcceptable e then 0 else 1) + unsupportedCount rest := by
      simp only [unsupportedCount, List.filter_cons]
      cases isAcceptable e <;> simp [Nat.add_comm]
    have hfc : failureCount (e :: rest)
        = (if isAcceptable e && !entrySucceeds e then 1 else 0) +
            failureCount rest := by
      simp only [failureCount, List.filter_cons]
      cases isAcceptable e && !entrySucceeds e <;> simp [Nat.add_comm]
    rw [hpb, huc, hfc, List.length_cons]
    cases hacc : isAcceptable e
    · have hs : entrySucceeds e = false := by
        rw [entrySucceeds, hacc, Bool.false_and]
      rw [hs]
      simp only [Bool.false_and, Bool.false_eq_true, if_false]
      omega
    · cases hs : entrySucceeds e <;>
        · simp only [Bool.not_true, Bool.not_false, Bool.and_true,
            Bool.and_false, Bool.true_and, Bool.false_eq_true, if_true,
            if_false]
          omega

/-- C5: every entry whose lowercased filename extension lies outside
`{png, jpg, jpeg, webp, gif}` (or whose save fails) resolves to `null` and is
simply dropped: the record list is the in-order image records of exactly the
entries that are acceptable and save successfully, per-entry failure never
affects the rest of the batch (processing distributes over concatenation),
and `resultingRecordCount = inputCount − unsupportedCount − failureCount`. -/
theorem ingestion_isolation_and_counts :
    ∀ batch xs ys : List DropEntry,
      (processBatch batch).length
          = batch.length - unsupportedCount batch - failureCount batch ∧
      processBatch (xs ++ ys) = processBatch xs ++ processBatch ys ∧
      processBatch batch = (batch.filter entrySucceeds).map entryRecord ∧
      ∀ e : DropEntry, isAcceptable e = false → processEntry e = none := by
  intro batch xs ys
  refine ⟨?_, ?_, processBatch_filter batch, ?_⟩
  · have := batch_count_sum batch
    omega
  · simp [processBatch, List.filterMap_append]
  · intro e hacc
    rw [processEntry_eq, entrySucceeds, hacc, Bool.false_and, if_neg]
    exact Bool.false_ne_true

theorem ingestion_isolation_and_counts_witness :
    processBatch
        [⟨"a.png", .pathSaved "![[a.png]]"⟩, ⟨"b.txt", .pathSaved "![[b.txt]]"⟩,
         ⟨"c.PNG", .noRuntime⟩, ⟨"d.jpeg", .bytesSaved "![[d.jpeg]]"⟩]
      = [⟨"a.png", "![[a.png]]"⟩, ⟨"d.jpeg", "![[d.jpeg]]"⟩] ∧
    (processBatch
        [⟨"a.png", .pathSaved "![[a.png]]"⟩, ⟨"b.txt", .pathSaved "![[b.txt]]"⟩,
         ⟨"c.PNG", .noRuntime⟩, ⟨"d.jpeg", .bytesSaved "![[d.jpeg]]"⟩]).length
      = 4 - 1 - 1 ∧
    processEntry ⟨"b.txt", .pathSaved "![[b.txt]]"⟩ = none := by
  refine ⟨by decide, ?_, ?_⟩
  · rw [(ingestion_isolation_and_counts
      [⟨"a.png", .pathSaved "![[a.png]]"⟩, ⟨"b.txt", .pathSaved "![[b.txt]]"⟩,
       ⟨"c.PNG", .noRuntime⟩, ⟨"d.jpeg", .bytesSaved "![[d.jpeg]]"⟩] [] []).1]
    decide
  · exact (ingestion_isolation_and_counts [] [] []).2.2.2
      ⟨"b.txt", .pathSaved "![[b.txt]]"⟩ (by decide)

/-! ### Settings synchronisation (`App.svelte` lines 23–35, 173–200)

The `settings_changed` listener rebuilds `appSettings` field by field with
`newSettings.field ?? appSettings.field`; a field absent from (or null in)
the snapshot is modelled as `none`. -/

structure AppSettings where
  background_color : String
  font_family : String
  font_size : Int
  border_radius : Int
  window_transparency : Int
  window_blur : Int
  window_saturation : Int
  window_brightness : Int
  text_color : String
  save_to_daily_shortcut : String
  save_as_note_shortcut : String
deriving DecidableEq

structure SettingsSnapshot where
  background_color : Option String
  font_family : Option String
  font_size : Option Int
  border_radius : Option Int
  window_transparency : Option Int
  window_blur : Option Int
  window_saturation : Option Int
  window_brightness : Option Int
  text_color : Option String
  save_to_daily_shortcut : Option String
  save_as_note_shortcut : Option String
deriving DecidableEq

/-- The `settings_changed` listener body: per-field `??` merge into the
local copy. -/
def applySettingsChanged (old : AppSettings) (snap : SettingsSnapshot) :
    AppSettings :=
  { background_color := snap.background_color.getD old.background_color,
    font_family := snap.font_family.getD old.font_family,
    font_size := snap.font_size.getD old.font_size,
    border_radius := snap.border_radius.getD old.border_radius,
    window_transparency := snap.window_transparency.getD old.window_transparency,
    window_blur := snap.window_blur.getD old.window_blur,
    window_saturation := snap.window_saturation.getD old.window_saturation,
    window_brightness := snap.window_brightness.getD old.window_brightness,
    text_color := snap.text_color.getD old.text_color,
    save_to_daily_shortcut :=
      snap.save_to_daily_shortcut.getD old.save_to_daily_shortcut,
    save_as_note_shortcut :=
      snap.save_as_note_shortcut.getD old.save_as_note_shortcut }

/-- C8: the merge is a partial update — every field absent from the snapshot
keeps its previous local value, and every field present in the snapshot takes
the snapshot value (so no field is ever reset to a default, and there is no
full overwrite). -/
theorem settingsChanged_field_merge (old : AppSettings)
    (snap : SettingsSnapshot) :
    (snap.background_color = none →
      (applySettingsChanged old snap).background_color = old.background_color) ∧
    (∀ v, snap.background_color = some v →
      (applySettingsChanged old snap).background_color = v) ∧
    (snap.font_family = none →
      (applySettingsChanged old snap).font_family = old.font_family) ∧
    (∀ v, snap.font_family = some v →
      (applySettingsChanged old snap).font_family = v) ∧
    (snap.font_size = none →
      (applySettingsChanged old snap).font_size = old.font_size) ∧
    (∀ v, snap.font_size = some v →
      (applySettingsChanged old snap).font_size = v) ∧
    (snap.border_radius = none →
      (applySettingsChanged old snap).border_radius = old.border_radius) ∧
    (∀ v, snap.border_radius = some v →
      (applySettingsChanged old snap).border_radius = v) ∧
    (snap.window_transparency = none →
      (applySettingsChanged old snap).window_transparency
        = old.window_transparency) ∧
    (∀ v, snap.window_transparency = some v →
      (applySettingsChanged old snap).window_transparency = v) ∧
    (snap.window_blur = none →
      (applySettingsChanged old snap).window_blur = old.window_blur) ∧
    (∀ v, snap.window_blur = some v →
      (applySettingsChanged old snap).window_blur = v) ∧
    (snap.window_saturation = none →
      (applySettingsChanged old snap).window_saturation
        = old.window_saturation) ∧
    (∀ v, snap.window_saturation = some v →
      (applySettingsChanged old snap).window_saturation = v) ∧
    (snap.window_brightness = none →
      (applySettingsChanged old snap).window_brightness
        = old.window_brightness) ∧
    (∀ v, snap.window_brightness = some v →
      (applySettingsChanged old snap).window_brightness = v) ∧
    (snap.text_color = none →
      (applySettingsChanged old snap).text_color = old.text_color) ∧
    (∀ v, snap.text_color = some v →
      (applySettingsChanged old snap).text_color = v) ∧
    (snap.save_to_daily_shortcut = none →
      (applySettingsChanged old snap).save_to_daily_shortcut
        = old.save_to_daily_shortcut) ∧
    (∀ v, snap.save_to_daily_shortcut = some v →
      (applySettingsChanged old snap).save_to_daily_shortcut = v) ∧
    (snap.save_as_note_shortcut = none →
      (applySettingsChanged old snap).save_as_note_shortcut
        = old.save_as_note_shortcut) ∧
    (∀ v, snap.save_as_note_shortcut = some v →
      (applySettingsChanged old snap).save_as_note_shortcut = v) := by
  repeat' apply And.intro
  all_goals intros
  all_goals simp [applySettingsChanged, *]

/-- The defaults declared at `App.svelte` lines 23–35. -/
def defaultAppSettings : AppSettings :=
  { background_color := "#1e1e2e",
    font_family := "-apple-system, BlinkMacSystemFont, SF Pro Display",
    font_size := 15, border_radius := 12, window_transparency := 55,
    window_blur := 80, window_saturation := 200, window_brightness := 0,
    text_color := "#ffffff", save_to_daily_shortcut := "Cmd+Enter",
    save_as_note_shortcut := "Cmd+Shift+Enter" }

/-- A partial snapshot carrying only a new background colour. -/
def sampleSnapshot : SettingsSnapshot :=
  { background_color := some "#123456", font_family := none, font_size := none,
    border_radius := none, window_transparency := none, window_blur := none,
    window_saturation := none, window_brightness := none, text_color := none,
    save_to_daily_shortcut := none, save_as_note_shortcut := none }

theorem settingsChanged_field_merge_witness :
    (applySettingsChanged defaultAppSettings sampleSnapshot).background_color
      = "#123456" ∧
    (applySettingsChanged defaultAppSettings sampleSnapshot).font_family
      = defaultAppSettings.font_family :=
  ⟨(settingsChanged_field_merge defaultAppSettings sampleSnapshot).2.1
      "#123456" rfl,
   (settingsChanged_field_merge defaultAppSettings sampleSnapshot).2.2.1 rfl⟩

/-! ### Host-native drops (`App.svelte` lines 687–753)

`handleTauriFileDrop` resolves the dropped paths and then appends all
resolved markdown references at the end of the buffer: a separating line
break first when the buffer is non-empty without a trailing one, then each
reference followed by a line break, in batch order.  No cursor position or
drop coordinate is consulted on this path. -/

/-- The insertion tail of `handleTauriFileDrop` (lines 738–750). -/
def tauriAppendImages (content : String) (markdowns : List String) : String :=
  if markdowns.length != 0 then
    let content' :=
      if content.length != 0 && !(strEndsWith content "\n") then content ++ "\n"
      else content
    markdowns.foldl (fun c md => c ++ (md ++ "\n")) content'
  else content

theorem foldl_append_refs (mds : List String) :
    ∀ c : String, mds.foldl (fun c md => c ++ (md ++ "\n")) c
      = c ++ concatRefs mds := by
  induction mds with
  | nil =>
    intro c
    apply str_ext
    simp [concatRefs, strData_append]
  | cons md rest ih =>
    intro c
    rw [List.foldl_cons, ih (c ++ (md ++ "\n")), concatRefs]
    rw [strAppend_assoc, strAppend_assoc]

/-- C9: a host-native drop appends all resolved references at the end of the
existing buffer — a separating line break is added exactly when the buffer is
non-empty and lacks a trailing one, then each reference plus a line break in
batch order — and the result coincides with the browser-path insertion loop
run at end-of-buffer, so no position heuristic can influence it. -/
theorem tauriDrop_appends_at_end (content : String) (mds : List String)
    (hne : mds ≠ []) :
    tauriAppendImages content mds
        = content ++
            (if content.length != 0 && !(strEndsWith content "\n") then "\n"
             else "") ++
            concatRefs mds ∧
    tauriAppendImages content mds
        = (insertImages content content.length mds).1 := by
  have hlen : mds.length != 0 := by
    cases mds with
    | nil => exact absurd rfl hne
    | cons a b => rfl
  have hmain : tauriAppendImages content mds
      = content ++
          (if content.length != 0 && !(strEndsWith content "\n") then "\n"
           else "") ++
          concatRefs mds := by
    rw [tauriAppendImages, if_pos hlen]
    by_cases hfix : (content.length != 0 && !(strEndsWith content "\n")) = true
    · rw [if_pos hfix]
      simp only [hfix, if_true]
      rw [foldl_append_refs mds (content ++ "\n"), strAppend_assoc]
    · rw [if_neg hfix, Bool.not_eq_true] at *
      simp only [hfix, Bool.false_eq_true, if_false]
      rw [foldl_append_refs mds content]
      apply str_ext
      simp [strData_append]
  refine ⟨hmain, ?_⟩
  rw [hmain, insertImages_end_append content content.length mds hne le_rfl]

theorem tauriDrop_appends_at_end_witness :
    tauriAppendImages "X" ["![[a.png]]"] = "X\n![[a.png]]\n" ∧
    tauriAppendImages "X" ["![[a.png]]"]
      = (insertImages "X" ("X" : String).length ["![[a.png]]"]).1 := by
  have h := tauriDrop_appends_at_end "X" ["![[a.png]]"] (by decide)
  refine ⟨?_, h.2⟩
  rw [h.1]
  decide

/-! ### The `insert_capture_text` listener (`App.svelte` lines 162–167)

The payload is taken as-is when it is a string (`none` models a non-string
payload, coerced to `""`), the listener returns early when the trimmed text
is empty, and otherwise assigns `content = text` wholesale. -/

/-- The `insert_capture_text` listener body. -/
def insertCaptureText (s : AppState) (payload : Option String) : AppState :=
  let text := match payload with
    | some t => t
    | none => ""
  if jsTrim text = "" then s else { s with content := text }

theorem jsTrim_eq_empty_iff (t : String) :
    jsTrim t = "" ↔ ∀ c ∈ t.data, jsWhitespace c = true := by
  have hmk : ∀ l : List Char, (⟨l⟩ : String) = "" ↔ l = [] := by
    intro l
    constructor
    · intro h
      exact congrArg String.data h
    · intro h
      rw [h]
  rw [jsTrim, hmk, List.reverse_eq_nil_iff, List.dropWhile_eq_nil_iff]
  constructor
  · intro h c hc
    by_cases hmem : c ∈ t.data.dropWhile jsWhitespace
    · exact h c (List.mem_reverse.mpr hmem)
    · have hsplit := List.takeWhile_append_dropWhile (p := jsWhitespace)
        (l := t.data)
      rw [← hsplit] at hc
      rcases List.mem_append.mp hc with h1 | h1
      · exact List.mem_takeWhile_imp h1
      · exact absurd h1 hmem
  · intro h c hc
    exact h c (List.dropWhile_subset _ (List.mem_reverse.mp hc))

/-- C10: a string payload with at least one non-whitespace character replaces
the whole buffer text (image records and all other state untouched); a
non-string or whitespace-only payload leaves the state completely
unchanged. -/
theorem insertCaptureText_replaces_or_ignores (s : AppState) (t : String) :
    insertCaptureText s none = s ∧
    ((∃ c ∈ t.data, jsWhitespace c = false) →
      insertCaptureText s (some t) = { s with content := t }) ∧
    ((∀ c ∈ t.data, jsWhitespace c = true) →
      insertCaptureText s (some t) = s) := by
  refine ⟨rfl, ?_, ?_⟩
  · intro h
    obtain ⟨c, hc, hw⟩ := h
    have : ¬(jsTrim t = "") := by
      rw [jsTrim_eq_empty_iff]
      intro hall
      rw [hall c hc] at hw
      exact absurd hw (by decide)
    simp only [insertCaptureText, if_neg this]
  · intro h
    have : jsTrim t = "" := (jsTrim_eq_empty_iff t).mpr h
    simp only [insertCaptureText, if_pos this]

/-- A state holding prior text and one image record, used to witness C10. -/
def busyState : AppState :=
  { initialState with
      content := "old text",
      uploadedImages := [⟨"a.png", "![[a.png]]"⟩] }

theorem insertCaptureText_replaces_or_ignores_witness :
    insertCaptureText busyState (some "new note")
        = { busyState with content := "new note" } ∧
    insertCaptureText busyState (some "   ") = busyState :=
  ⟨(insertCaptureText_replaces_or_ignores busyState "new note").2.1
      (by decide),
   (insertCaptureText_replaces_or_ignores busyState "   ").2.2
      (by decide)⟩

end Collector
